import Mathlib

/-!
Verification of the data-normalization pipeline of `streamlit_app.py`
(`fix_trailing_minus` / `post_process_amounts`, `parse_amount_to_float`,
`normalize_output_structure`, `calculate_running_balances`).

Modelling conventions:
* Python values flowing through the pipeline are modelled by `PyVal`
  (strings, numbers, booleans, `None`, lists, dicts with string keys).
* Python `float` is modelled by `Rat`; every arithmetic step appearing
  in the claims is exact in IEEE double precision, so the rational
  semantics agrees with the source on every input the claims mention.
* Code that can raise a Python exception is modelled in
  `Except Unit _`; `.error ()` means "raises".
* `re` patterns are modelled by deterministic scanners over `List Char`
  (the two patterns used contain no backtracking ambiguity, see the
  `numToken` lemmas below).
-/

/-- A Python value as it appears in the JSON pipeline: `str`, `float`/`int`
(modelled as `Rat`), `bool`, `None`, `list`, `dict` (string keys,
insertion-ordered association list, exactly like a Python `dict`). -/
inductive PyVal where
  | str (s : String)
  | num (q : Rat)
  | bool (b : Bool)
  | none
  | list (l : List PyVal)
  | dict (l : List (String × PyVal))

/-- Is this value a Python `dict`? (`isinstance(x, dict)`) -/
def PyVal.isDict : PyVal → Bool
  | .dict _ => true
  | _ => false

/-- Is this value a Python `list`? (`isinstance(x, list)`) -/
def PyVal.isList : PyVal → Bool
  | .list _ => true
  | _ => false

/-- Is this value a Python `str`? (`isinstance(x, str)`) -/
def PyVal.isStr : PyVal → Bool
  | .str _ => true
  | _ => false

/-- First binding of key `k` in an insertion-ordered association list
(Python dict lookup; the dicts the code builds never contain duplicate
keys). -/
def lookupKey : List (String × PyVal) → String → Option PyVal
  | [], _ => Option.none
  | (k', v) :: r, k => if k' = k then some v else lookupKey r k

/-- Models `k in d` for a dict: key membership. -/
def hasKey (l : List (String × PyVal)) (k : String) : Bool :=
  (lookupKey l k).isSome

/-- Models `d[k] = v` on a dict: overwrite in place if the key exists
(position preserved), otherwise append (Python insertion order). -/
def setKey : List (String × PyVal) → String → PyVal → List (String × PyVal)
  | [], k, v => [(k, v)]
  | (k', v') :: r, k, v => if k' = k then (k, v) :: r else (k', v') :: setKey r k v

/-- Python truthiness of a value (`if x:`). -/
def pyTruthy : PyVal → Bool
  | .str s => !s.isEmpty
  | .num q => !(q = 0 : Bool)
  | .bool b => b
  | .none => false
  | .list l => !l.isEmpty
  | .dict l => !l.isEmpty

/-- Models `d.get(k, default)`; every call site guards that `d` is a dict. -/
def pyGetD (v : PyVal) (k : String) (d : PyVal) : PyVal :=
  match v with
  | .dict l => (lookupKey l k).getD d
  | _ => d

/- ### Character-level helpers (Python `str` methods and the two regexes) -/

/-- ASCII whitespace stripped by `str.strip()` and matched by `\s`
(the claims only involve ASCII data). -/
def pyIsSpace (c : Char) : Bool :=
  c = ' ' || c = '\t' || c = '\n' || c = '\r' || c = '\x0b' || c = '\x0c'

/-- Models `str.strip()` on a character list. -/
def stripChars (l : List Char) : List Char :=
  (((l.dropWhile pyIsSpace).reverse).dropWhile pyIsSpace).reverse

/-- A character matched by the regex class `[\d,]`. -/
def isDigitOrComma (c : Char) : Bool := c.isDigit || c = ','

/-- The three "dash" alternatives of the trailing-minus regex:
ASCII `-`, minus sign U+2212, en dash U+2013. -/
def isDash (c : Char) : Bool := c = '-' || c = '−' || c = '–'

/-- Currency symbols removed by `re.sub(r'[$€£₹¥]', '', ...)`. -/
def isCurrency (c : Char) : Bool :=
  c = '$' || c = '€' || c = '£' || c = '₹' || c = '¥'

/-- Models `re.sub(r'[$€£₹¥]', '', s)`. -/
def removeCurrency (l : List Char) : List Char := l.filter (fun c => !isCurrency c)

/-- Models `s.replace(',', '')`. -/
def removeCommas (l : List Char) : List Char := l.filter (fun c => !(c = ',' : Bool))

/-- Greedy scan of the regex fragment `([\d,]+\.?\d*)`: returns the
matched group and the remaining input.  The fragment is followed, in
both regexes that use it, only by characters none of its pieces can
consume (whitespace/dash resp. `)`), so greedy scanning without
backtracking coincides with `re.match`. -/
def numToken (l : List Char) : Option (List Char × List Char) :=
  let a := l.takeWhile isDigitOrComma
  let r := l.dropWhile isDigitOrComma
  if a.isEmpty then Option.none
  else
    match r with
    | '.' :: r2 => some (a ++ '.' :: r2.takeWhile Char.isDigit, r2.dropWhile Char.isDigit)
    | _ => some (a, r)

/-- Models `re.match(r'^([\d,]+\.?\d*)[\s]*(-|−|–)[\s]*$', t)`: returns the
numeric group on success. -/
def matchTrailing (l : List Char) : Option (List Char) :=
  match numToken l with
  | Option.none => Option.none
  | some (g, rest) =>
    match rest.dropWhile pyIsSpace with
    | d :: rest2 =>
      if isDash d && (rest2.dropWhile pyIsSpace).isEmpty then some g else Option.none
    | [] => Option.none

/-- Models `re.match(r'^\(([\d,]+\.?\d*)\)$', t)`: returns the numeric group. -/
def matchParen (l : List Char) : Option (List Char) :=
  match l with
  | '(' :: r =>
    match numToken r with
    | some (g, [')']) => some g
    | _ => Option.none
  | _ => Option.none

/- ### `float(s)` model -/

/-- Numeric value of a digit string. -/
def digitsVal (l : List Char) : Nat :=
  l.foldl (fun n c => 10 * n + (c.toNat - 48)) 0

/-- Exponent suffix of a Python float literal (must consume the whole
remainder): empty, or `('e'|'E') ['+'|'-'] D+`. -/
def floatExponent (r : List Char) : Option Int :=
  match r with
  | [] => some 0
  | e :: r2 =>
    if e = 'e' || e = 'E' then
      let p : Int × List Char :=
        match r2 with
        | '+' :: t => (1, t)
        | '-' :: t => (-1, t)
        | _ => (1, r2)
      let ds := p.2.takeWhile Char.isDigit
      if ds.isEmpty || !(p.2.dropWhile Char.isDigit).isEmpty then Option.none
      else some (p.1 * (digitsVal ds : Int))
    else Option.none

/-- Syntactic scan of a Python float literal: strips whitespace, then
optional sign, then a mantissa `D+ | D+ '.' D* | '.' D+`, then an
optional exponent consuming the whole remainder.  Returns
`(negative?, integer-part value, fraction-part value, fraction length,
exponent)`; `Option.none` models `ValueError`. -/
def floatScan (l0 : List Char) : Option (Bool × Nat × Nat × Nat × Int) :=
  let l := stripChars l0
  let sb : Bool × List Char :=
    match l with
    | '+' :: r => (false, r)
    | '-' :: r => (true, r)
    | _ => (false, l)
  let ip := sb.2.takeWhile Char.isDigit
  let r1 := sb.2.dropWhile Char.isDigit
  let fpr : Option (List Char × List Char) :=
    match r1 with
    | '.' :: r2 =>
      if ip.isEmpty && (r2.takeWhile Char.isDigit).isEmpty then Option.none
      else some (r2.takeWhile Char.isDigit, r2.dropWhile Char.isDigit)
    | _ => if ip.isEmpty then Option.none else some ([], r1)
  match fpr with
  | Option.none => Option.none
  | some (fp, r3) =>
    match floatExponent r3 with
    | Option.none => Option.none
    | some e => some (sb.1, digitsVal ip, digitsVal fp, fp.length, e)

/-- Numeric value of a scanned float literal. -/
def ratOfScan (neg : Bool) (ip fp k : Nat) (e : Int) : Rat :=
  (if neg then (-1 : Rat) else 1) * ((ip : Rat) + (fp : Rat) / (10 : Rat) ^ k) * (10 : Rat) ^ e

/-- Model of Python `float(s)`: value of the scanned literal,
`Option.none` models `ValueError`.  (`inf`/`nan`/underscore literals
are outside the model; no claim evaluates `float` on such strings.) -/
def pyFloat (l0 : List Char) : Option Rat :=
  match floatScan l0 with
  | Option.none => Option.none
  | some (neg, ip, fp, k, e) => some (ratOfScan neg ip fp k e)

/- ### `fix_trailing_minus` and `post_process_amounts` (lines 94-126) -/

/-- Models `fix_trailing_minus(text)` on a character list (the
`isinstance(text, str)` guard is vacuous at the one call site, which
only passes strings): blank strings are returned untouched; otherwise
the *stripped* text is matched against the trailing-minus pattern
(rewritten to `<group>-`), then the parenthesized pattern (rewritten to
`(<group>)`), and otherwise the stripped text is returned. -/
def fixChars (l : List Char) : List Char :=
  if (stripChars l).isEmpty then l
  else
    match matchTrailing (stripChars l) with
    | some g => g ++ ['-']
    | Option.none =>
      match matchParen (stripChars l) with
      | some g => '(' :: (g ++ [')'])
      | Option.none => stripChars l

/-- Models `fix_trailing_minus` on `String`. -/
def fix_trailing_minus (s : String) : String := (fixChars s.data).asString

mutual

/-- Models `post_process_amounts(data)` (lines 119-126): recursively rebuild
dicts (same keys, same order) and lists (same order), apply
`fix_trailing_minus` to strings, return every other value unchanged. -/
def post_process_amounts : PyVal → PyVal
  | .dict l => .dict (postFields l)
  | .list l => .list (postElems l)
  | .str s => .str (fix_trailing_minus s)
  | v => v

/-- The dict comprehension `{k: post_process_amounts(v) for k, v in data.items()}`. -/
def postFields : List (String × PyVal) → List (String × PyVal)
  | [] => []
  | (k, v) :: r => (k, post_process_amounts v) :: postFields r

/-- The list comprehension `[post_process_amounts(item) for item in data]`. -/
def postElems : List PyVal → List PyVal
  | [] => []
  | v :: r => post_process_amounts v :: postElems r

end

/- ### `parse_amount_to_float` (lines 129-170) -/

/-- Models `-float(g.replace(',', ''))` as it appears in the trailing-minus,
parenthesized and leading-minus branches: these calls are *not* inside
a `try`, so a failing `float` raises (`.error`). -/
def negParse (g : List Char) : Except Unit Rat :=
  match pyFloat (removeCommas g) with
  | some q => .ok (-q)
  | Option.none => .error ()

/-- The four branches of `parse_amount_to_float` in source order
(trailing minus, parentheses, leading minus, plain) applied to the
stripped, currency-stripped text.  Only the final branch wraps `float`
in `try/except` (lines 167-170): the other three propagate a
`ValueError` from `float`. -/
def parseCore (u : List Char) : Except Unit Rat :=
  match matchTrailing u with
  | some g => negParse g
  | Option.none =>
    match matchParen u with
    | some g => negParse g
    | Option.none =>
      match u with
      | '-' :: rest => negParse rest
      | _ =>
        match pyFloat (removeCommas u) with
        | some q => .ok q
        | Option.none => .ok 0

/-- Blank-string guards of `parse_amount_to_float`, then `parseCore` on
the currency-stripped text. -/
def parseChars (d : List Char) : Except Unit Rat :=
  if d.isEmpty then .ok 0
  else if (stripChars d).isEmpty then .ok 0
  else parseCore (removeCurrency (stripChars d))

/-- Models `parse_amount_to_float(amount_str)` (lines 129-170).  Non-strings
and falsy values return `0.0` (`if not amount_str or not
isinstance(amount_str, str)`); strings are handled by `parseChars`. -/
def parse_amount_to_float (v : PyVal) : Except Unit Rat :=
  match v with
  | .str s => parseChars s.data
  | _ => .ok 0


/- ### `normalize_output_structure` (lines 173-238) -/

/-- Does `n` start `h`? (helper for Python substring membership). -/
def startsList : List Char → List Char → Bool
  | [], _ => true
  | _ :: _, [] => false
  | a :: as, b :: bs => a = b && startsList as bs

/-- Is `n` a contiguous substring of the second list? -/
def isSubList (n : List Char) : List Char → Bool
  | [] => n.isEmpty
  | c :: rest => startsList n (c :: rest) || isSubList n rest

/-- Models `k in l` for a Python list and a string `k`: element equality
(a string compares equal only to an equal string). -/
def listHasStr (l : List PyVal) (k : String) : Bool :=
  l.any fun x =>
    match x with
    | .str s => s = k
    | _ => false

/-- Python `k in v` for a string key `k`: key membership for dicts,
element membership for lists, substring test for strings; raises
`TypeError` (modelled `.error`) for non-iterables (numbers, booleans,
`None`). -/
def pyContains (k : String) (v : PyVal) : Except Unit Bool :=
  match v with
  | .dict l => .ok (hasKey l k)
  | .list l => .ok (listHasStr l k)
  | .str s => .ok (isSubList k.data s.data)
  | _ => .error ()

/-- Python `v[k] = x` for a string key: dict item assignment; raises
`TypeError` (modelled `.error`) on anything that is not a dict. -/
def pySetItem (v : PyVal) (k : String) (x : PyVal) : Except Unit PyVal :=
  match v with
  | .dict l => .ok (.dict (setKey l k x))
  | _ => .error ()

/-- The zero-valued summary literal of lines 199-203 / 224-228. -/
def defaultSummary : PyVal :=
  .dict [("total_nsf_fees", .num 0), ("unique_days_with_nsf", .num 0),
         ("max_nsfs_in_any_7day_window", .num 0)]

/-- The zero-valued `nsf_data` literal of lines 197-204. -/
def defaultNsf : PyVal := .dict [("events", .list []), ("summary", defaultSummary)]

/-- Lines 229-236: for each of the three summary sub-fields, test
membership with Python `in` and perform item assignment if absent.
Both steps raise on a non-dict summary exactly when Python does
(`in` on a non-iterable raises; assignment on a non-dict raises). -/
def fixSummary (s0 : PyVal) : Except Unit PyVal :=
  match pyContains "total_nsf_fees" s0 with
  | .error e => .error e
  | .ok b1 =>
    match (if b1 then Except.ok s0 else pySetItem s0 "total_nsf_fees" (.num 0)) with
    | .error e => .error e
    | .ok s1 =>
      match pyContains "unique_days_with_nsf" s1 with
      | .error e => .error e
      | .ok b2 =>
        match (if b2 then Except.ok s1 else pySetItem s1 "unique_days_with_nsf" (.num 0)) with
        | .error e => .error e
        | .ok s2 =>
          match pyContains "max_nsfs_in_any_7day_window" s2 with
          | .error e => .error e
          | .ok b3 =>
            if b3 then Except.ok s2 else pySetItem s2 "max_nsfs_in_any_7day_window" (.num 0)

/-- Lines 207-236: ensure the `events` key, then the `summary` key (and
its sub-fields) exist in `nsf_data`.  The non-dict branch (lines
208-216) is unreachable at the call site but translated faithfully.
The Python mutations through the `summary` alias are reflected here by
writing the updated summary value back into the dict. -/
def fixNsf (nsf : PyVal) : Except Unit PyVal :=
  match nsf with
  | .dict l =>
    if hasKey (if hasKey l "events" then l else setKey l "events" (.list [])) "summary" then
      match lookupKey (if hasKey l "events" then l else setKey l "events" (.list [])) "summary" with
      | some s =>
        match fixSummary s with
        | .error e => .error e
        | .ok s' =>
          .ok (.dict (setKey (if hasKey l "events" then l else setKey l "events" (.list []))
            "summary" s'))
      | Option.none =>
        .ok (.dict (if hasKey l "events" then l else setKey l "events" (.list [])))
    else
      .ok (.dict (setKey (if hasKey l "events" then l else setKey l "events" (.list []))
        "summary" defaultSummary))
  | _ => .ok defaultNsf

/-- Models `data.get(k) if data.get(k) else None` (scalar fields). -/
def truthyField (data : PyVal) (k : String) : PyVal :=
  if pyTruthy (pyGetD data k .none) then pyGetD data k .none else .none

/-- Models `data.get(k) if k in data else False` (boolean fields):
presence-check, value passed through as-is. -/
def presenceField (data : PyVal) (k : String) : PyVal :=
  match data with
  | .dict l => if hasKey l k then (lookupKey l k).getD .none else .bool false
  | _ => .bool false

/-- Models `data.get(k) if isinstance(data.get(k), list) else []` (list fields). -/
def listField (data : PyVal) (k : String) : PyVal :=
  if (pyGetD data k .none).isList then pyGetD data k .none else .list []

/-- Models `data` after the non-dict coercion of lines 179-180. -/
def coerceDict (v : PyVal) : PyVal := if v.isDict then v else .dict []

/-- The `nsf_data` slot of the literal (line 197): the input value when
it is a dict, else the zero-valued default. -/
def nsfField (data : PyVal) : PyVal :=
  if (pyGetD data "nsf_data" .none).isDict then pyGetD data "nsf_data" .none else defaultNsf

/-- The 14 fields of the `normalized` literal (lines 183-205), with the
final (post-processed) `nsf_data` value in its slot. -/
def recordFields (data : PyVal) (nsf : PyVal) : List (String × PyVal) :=
  [("company_name", truthyField data "company_name"),
   ("bank_name", truthyField data "bank_name"),
   ("is_bank_statement", presenceField data "is_bank_statement"),
   ("is_application_form", presenceField data "is_application_form"),
   ("currency", truthyField data "currency"),
   ("statement_period", truthyField data "statement_period"),
   ("account_number", truthyField data "account_number"),
   ("transactions", listField data "transactions"),
   ("daily_ending_balance", listField data "daily_ending_balance"),
   ("cheques", listField data "cheques"),
   ("fees", listField data "fees"),
   ("starting_balance", truthyField data "starting_balance"),
   ("ending_balance", truthyField data "ending_balance"),
   ("nsf_data", nsf)]

/-- Models `normalize_output_structure(data)` (lines 173-238): coerce non-dict
input to `{}`, build the 14-field record literal (lines 183-205), then
run the `nsf_data` post-processing (lines 207-236).  The observable
value of the returned record places the final `nsf_data` value in the
slot of the literal; `.error` marks the inputs on which the Python code
raises `TypeError` (non-dict `summary` inside a dict `nsf_data`). -/
def normalize_output_structure (data0 : PyVal) : Except Unit PyVal :=
  match fixNsf (nsfField (coerceDict data0)) with
  | .error e => .error e
  | .ok nsf => .ok (.dict (recordFields (coerceDict data0) nsf))

/- ### `calculate_running_balances` (lines 241-278) -/

/-- One credit/debit step of the loop body (lines 262-270):
`if s and s.strip(): current ± parse_amount_to_float(s)`.  A truthy
non-string raises at `.strip()` (modelled `.error`); `parse` may itself
raise in its sign branches. -/
def applyAmt (isCredit : Bool) (cur : Rat) (v : PyVal) : Except Unit Rat :=
  if pyTruthy v then
    match v with
    | .str s =>
      if (stripChars s.data).isEmpty then pure cur
      else do
        let a ← parse_amount_to_float (.str s)
        pure (if isCredit then cur + a else cur - a)
    | _ => .error ()
  else pure cur

/-- One iteration of the `for transaction in transactions` loop (lines
257-276): read `date`, `credit`, `debit` with `.get(..., "")`, apply
the credit then the debit, and emit `{"date": date, "balance": cur}`.
`transaction.get` on a non-dict raises (modelled `.error`). -/
def stepTxn (cur : Rat) (t : PyVal) : Except Unit (PyVal × Rat) :=
  match t with
  | .dict l => do
    let date := (lookupKey l "date").getD (.str "")
    let credit := (lookupKey l "credit").getD (.str "")
    let debit := (lookupKey l "debit").getD (.str "")
    let cur1 ← applyAmt true cur credit
    let cur2 ← applyAmt false cur1 debit
    pure (.dict [("date", date), ("balance", .num cur2)], cur2)
  | _ => .error ()

/-- The transaction loop, threading the running balance. -/
def calcGo : List PyVal → Rat → Except Unit (List PyVal)
  | [], _ => pure []
  | t :: ts, cur => do
    let p ← stepTxn cur t
    let rest ← calcGo ts p.2
    pure (p.1 :: rest)

/-- Models `calculate_running_balances(processed_data)` (lines 241-278):
starting balance from `processed_data.get("starting_balance", "0")`,
then the loop over `processed_data.get("transactions", [])`.  The model
covers the shapes the pipeline produces: the input must be a dict and
the `transactions` value a sequence (other shapes raise further into
the loop in Python and are mapped to `.error` here). -/
def calculate_running_balances (pd : PyVal) : Except Unit (List PyVal) :=
  match pd with
  | .dict l => do
    let sb := (lookupKey l "starting_balance").getD (.str "0")
    let cur ← parse_amount_to_float sb
    match (lookupKey l "transactions").getD (.list []) with
    | .list ts => calcGo ts cur
    | _ => .error ()
  | _ => .error ()

/- ### Heap model of `normalize_output_structure` (for the aliasing and
in-place-mutation behaviour of the `nsf_data` handling) -/

/-- An immediate Python value: immutables are inlined, mutable
containers (dicts, lists) are references into a `Store`. -/
inductive HVal where
  | str (s : String)
  | num (q : Rat)
  | bool (b : Bool)
  | none
  | ref (a : Nat)
deriving DecidableEq

/-- A heap node: a dict or a list object. -/
inductive HNode where
  | dict (l : List (String × HVal))
  | arr (l : List HVal)
deriving DecidableEq

/-- The Python heap: node `a` lives at index `a`; `append` allocates. -/
abbrev Store := List HNode

/-- Allocate a fresh object (returns the new store and the reference). -/
def allocN (σ : Store) (n : HNode) : Store × HVal := (σ ++ [n], .ref σ.length)

/-- First binding of `k` in a heap dict. -/
def lookupH : List (String × HVal) → String → Option HVal
  | [], _ => Option.none
  | (k', v) :: r, k => if k' = k then some v else lookupH r k

/-- Key update preserving position, appending when absent. -/
def setKeyH : List (String × HVal) → String → HVal → List (String × HVal)
  | [], k, v => [(k, v)]
  | (k', v') :: r, k, v => if k' = k then (k, v) :: r else (k', v') :: setKeyH r k v

/-- Models `isinstance(v, dict)` in the heap model. -/
def isDictR (σ : Store) (v : HVal) : Bool :=
  match v with
  | .ref a =>
    match σ.get? a with
    | some (.dict _) => true
    | _ => false
  | _ => false

/-- Models `isinstance(v, list)` in the heap model. -/
def isListR (σ : Store) (v : HVal) : Bool :=
  match v with
  | .ref a =>
    match σ.get? a with
    | some (.arr _) => true
    | _ => false
  | _ => false

/-- Models `v.get(k, d)` for a dict reference. -/
def hGetD (σ : Store) (v : HVal) (k : String) (d : HVal) : HVal :=
  match v with
  | .ref a =>
    match σ.get? a with
    | some (.dict l) => (lookupH l k).getD d
    | _ => d
  | _ => d

/-- Models `k in v` for a dict reference. -/
def hHasKey (σ : Store) (v : HVal) (k : String) : Bool :=
  match v with
  | .ref a =>
    match σ.get? a with
    | some (.dict l) => (lookupH l k).isSome
    | _ => false
  | _ => false

/-- In-place dict item assignment `v[k] = x`: mutates the node `v`
points to (call sites guarantee a dict reference). -/
def hSetKey (σ : Store) (v : HVal) (k : String) (x : HVal) : Store :=
  match v with
  | .ref a =>
    match σ.get? a with
    | some (.dict l) => σ.set a (.dict (setKeyH l k x))
    | _ => σ
  | _ => σ

/-- Python truthiness in the heap model. -/
def hTruthy (σ : Store) (v : HVal) : Bool :=
  match v with
  | .str s => !s.isEmpty
  | .num q => !(q = 0 : Bool)
  | .bool b => b
  | .none => false
  | .ref a =>
    match σ.get? a with
    | some (.dict l) => !l.isEmpty
    | some (.arr l) => !l.isEmpty
    | Option.none => false

/-- Scalar field in the heap model. -/
def truthyFieldH (σ : Store) (data : HVal) (k : String) : HVal :=
  let g := hGetD σ data k .none
  if hTruthy σ g then g else .none

/-- Boolean (presence-checked) field in the heap model. -/
def presenceFieldH (σ : Store) (data : HVal) (k : String) : HVal :=
  if hHasKey σ data k then hGetD σ data k .none else .bool false

/-- List field in the heap model: `[]` allocates a fresh empty list. -/
def listFieldH (σ : Store) (data : HVal) (k : String) : Store × HVal :=
  let g := hGetD σ data k .none
  if isListR σ g then (σ, g) else allocN σ (.arr [])

/-- Allocation of the zero-valued summary dict literal. -/
def allocSummary (σ : Store) : Store × HVal :=
  allocN σ (.dict [("total_nsf_fees", .num 0), ("unique_days_with_nsf", .num 0),
                   ("max_nsfs_in_any_7day_window", .num 0)])

/-- Allocation of the zero-valued `nsf_data` literal (inner list and
dict literals are allocated first, as Python evaluates them). -/
def allocDefaultNsf (σ : Store) : Store × HVal :=
  let p1 := allocN σ (.arr [])
  let p2 := allocSummary p1.1
  allocN p2.1 (.dict [("events", p1.2), ("summary", p2.2)])

/-- Models `k in summary` / `summary[k] = 0` step (lines 231-236) in the heap
model: membership through the reference, in-place assignment on the
referenced node.  Mirrors `pyContains`/`pySetItem` of the value model,
including the raising cases. -/
def hSummaryStep (σ : Store) (sv : HVal) (k : String) : Except Unit Store :=
  match sv with
  | .ref a =>
    match σ.get? a with
    | some (.dict l) =>
      if (lookupH l k).isSome then .ok σ
      else .ok (σ.set a (.dict (setKeyH l k (.num 0))))
    | some (.arr l) =>
      if l.any (fun x => x = HVal.str k) then .ok σ else .error ()
    | Option.none => .error ()
  | .str s =>
    if isSubList k.data s.data then .ok σ else .error ()
  | _ => .error ()

/-- Models `normalize_output_structure` in the heap model.  Phase 1 builds the
record literal (lines 183-205) allocating defaults exactly where the
Python literal evaluation does; phase 2 (lines 207-236) reads
`normalized["nsf_data"]` and mutates the referenced objects in place.
Returns the reference to the record together with the final store. -/
def normalizeH (v : HVal) (σ0 : Store) : Except Unit (HVal × Store) :=
  let pd : HVal × Store := if isDictR σ0 v then (v, σ0) else
    let p := allocN σ0 (.dict []); (p.2, p.1)
  let data := pd.1
  let σa := pd.2
  let f1 := truthyFieldH σa data "company_name"
  let f2 := truthyFieldH σa data "bank_name"
  let f3 := presenceFieldH σa data "is_bank_statement"
  let f4 := presenceFieldH σa data "is_application_form"
  let f5 := truthyFieldH σa data "currency"
  let f6 := truthyFieldH σa data "statement_period"
  let f7 := truthyFieldH σa data "account_number"
  let p8 := listFieldH σa data "transactions"
  let p9 := listFieldH p8.1 data "daily_ending_balance"
  let p10 := listFieldH p9.1 data "cheques"
  let p11 := listFieldH p10.1 data "fees"
  let f12 := truthyFieldH p11.1 data "starting_balance"
  let f13 := truthyFieldH p11.1 data "ending_balance"
  let pn : Store × HVal :=
    let g := hGetD p11.1 data "nsf_data" .none
    if isDictR p11.1 g then (p11.1, g) else allocDefaultNsf p11.1
  let pr := allocN pn.1 (.dict [
    ("company_name", f1), ("bank_name", f2),
    ("is_bank_statement", f3), ("is_application_form", f4),
    ("currency", f5), ("statement_period", f6), ("account_number", f7),
    ("transactions", p8.2), ("daily_ending_balance", p9.2),
    ("cheques", p10.2), ("fees", p11.2),
    ("starting_balance", f12), ("ending_balance", f13),
    ("nsf_data", pn.2)])
  let recv := pr.2
  let σ1 := pr.1
  let nsfv := hGetD σ1 recv "nsf_data" .none
  if isDictR σ1 nsfv then
    let σ2 :=
      if hHasKey σ1 nsfv "events" then σ1
      else
        let pe := allocN σ1 (.arr [])
        hSetKey pe.1 nsfv "events" pe.2
    if hHasKey σ2 nsfv "summary" then
      let sv := hGetD σ2 nsfv "summary" .none
      match hSummaryStep σ2 sv "total_nsf_fees" with
      | .error e => .error e
      | .ok σ3 =>
        match hSummaryStep σ3 sv "unique_days_with_nsf" with
        | .error e => .error e
        | .ok σ4 =>
          match hSummaryStep σ4 sv "max_nsfs_in_any_7day_window" with
          | .error e => .error e
          | .ok σ5 => .ok (recv, σ5)
    else
      let ps := allocSummary σ2
      .ok (recv, hSetKey ps.1 nsfv "summary" ps.2)
  else
    let pd2 := allocDefaultNsf σ1
    .ok (recv, hSetKey pd2.1 recv "nsf_data" pd2.2)

/- ### Specification-side helper definitions (used only in theorem
statements and proofs) -/

/-- Shape of a group matched by the regex fragment `([\d,]+\.?\d*)`:
either `A ++ '.' :: B` with `A` nonempty over `[\d,]` and `B` over
digits, or a nonempty run over `[\d,]` alone. -/
def goodCore (g : List Char) : Prop :=
  (∃ A B, g = A ++ '.' :: B ∧ A ≠ [] ∧ (∀ c ∈ A, isDigitOrComma c = true) ∧
    (∀ c ∈ B, Char.isDigit c = true)) ∨
  (g ≠ [] ∧ ∀ c ∈ g, isDigitOrComma c = true)

/-- Does the character list start with an ASCII minus?
(`amount_str.startswith('-')`). -/
def startsWithMinus : List Char → Bool
  | '-' :: _ => true
  | _ => false

mutual

/-- Erase every string leaf (replace it by `""`), keeping everything
else: two values have the same `eraseStrings` image iff they agree on
shape, mapping keys and order, sequence lengths and order, and every
non-string leaf. -/
def eraseStrings : PyVal → PyVal
  | .dict l => .dict (eraseFields l)
  | .list l => .list (eraseElems l)
  | .str _ => .str ""
  | v => v

/-- Companion of `eraseStrings` over dict fields. -/
def eraseFields : List (String × PyVal) → List (String × PyVal)
  | [] => []
  | (k, v) :: r => (k, eraseStrings v) :: eraseFields r

/-- Companion of `eraseStrings` over list elements. -/
def eraseElems : List PyVal → List PyVal
  | [] => []
  | v :: r => eraseStrings v :: eraseElems r

end

/-- The key list of a dict value. -/
def dictKeys : PyVal → List String
  | .dict l => l.map Prod.fst
  | _ => []

/-- Key membership directly on a `PyVal`. -/
def hasKeyP (v : PyVal) (k : String) : Bool :=
  match v with
  | .dict l => hasKey l k
  | _ => false

/-- The inputs on which the `nsf_data` post-processing of the Structure
Normalizer cannot reach a raising operation: `nsf_data` is not a dict,
or has no `summary` key, or its `summary` is itself a dict. -/
def nsfSummaryOk (v : PyVal) : Prop :=
  match v with
  | .dict l =>
    match lookupKey l "nsf_data" with
    | some (.dict nl) =>
      match lookupKey nl "summary" with
      | some s => s.isDict = true
      | Option.none => True
    | _ => True
  | _ => True

/- ## Character-level lemmas -/

theorem dropWhile_idem (p : Char → Bool) (l : List Char) :
    (l.dropWhile p).dropWhile p = l.dropWhile p := by
  induction l with
  | nil => rfl
  | cons a l ih =>
    by_cases h : p a
    · simp [List.dropWhile_cons, h, ih]
    · simp [List.dropWhile_cons, h]

theorem dropWhile_head_false {p : Char → Bool} {l : List Char} {a : Char} {t : List Char}
    (h : l.dropWhile p = a :: t) : p a = false := by
  induction l with
  | nil => simp at h
  | cons b l ih =>
    by_cases hb : p b
    · rw [List.dropWhile_cons, if_pos hb] at h
      exact ih h
    · rw [List.dropWhile_cons, if_neg hb] at h
      injection h with h1 _
      subst h1
      simpa using hb

theorem stripChars_head_false {l : List Char} {a : Char} {t : List Char}
    (h : stripChars l = a :: t) : pyIsSpace a = false := by
  have hsuf : (l.dropWhile pyIsSpace).reverse.dropWhile pyIsSpace <:+
      (l.dropWhile pyIsSpace).reverse := List.dropWhile_suffix _
  have hpre : stripChars l <+: l.dropWhile pyIsSpace := by
    have h2 := List.reverse_prefix.mpr hsuf
    simpa [stripChars] using h2
  rw [h] at hpre
  obtain ⟨r, hr⟩ := hpre
  have hform : l.dropWhile pyIsSpace = a :: (t ++ r) := by rw [← hr]; simp
  exact dropWhile_head_false hform

theorem stripChars_idem (l : List Char) : stripChars (stripChars l) = stripChars l := by
  have h1 : (stripChars l).dropWhile pyIsSpace = stripChars l := by
    cases hB : stripChars l with
    | nil => rfl
    | cons a t => simp [List.dropWhile_cons, stripChars_head_false hB]
  show (((stripChars l).dropWhile pyIsSpace).reverse.dropWhile pyIsSpace).reverse = stripChars l
  rw [h1]
  have h2 : (stripChars l).reverse = (l.dropWhile pyIsSpace).reverse.dropWhile pyIsSpace := by
    simp [stripChars]
  rw [h2, dropWhile_idem]
  simp [stripChars]

theorem strip_noop {a b : Char} (m : List Char)
    (ha : pyIsSpace a = false) (hb : pyIsSpace b = false) :
    stripChars (a :: (m ++ [b])) = a :: (m ++ [b]) := by
  unfold stripChars
  rw [List.dropWhile_cons, if_neg (by simp [ha])]
  have h1 : (a :: (m ++ [b])).reverse = b :: (m.reverse ++ [a]) := by simp
  rw [h1, List.dropWhile_cons, if_neg (by simp [hb])]
  simp

theorem takeWhile_all_append {p : Char → Bool} {A : List Char}
    (hA : ∀ c ∈ A, p c = true) {x : Char} (hx : p x = false) (y : List Char) :
    (A ++ x :: y).takeWhile p = A ∧ (A ++ x :: y).dropWhile p = x :: y := by
  induction A with
  | nil => simp [List.takeWhile_cons, List.dropWhile_cons, hx]
  | cons a A ih =>
    have ha := hA a (by simp)
    have ih' := ih (fun c hc => hA c (by simp [hc]))
    simp [List.takeWhile_cons, List.dropWhile_cons, ha, ih'.1, ih'.2]

theorem mem_takeWhile_true {p : Char → Bool} {l : List Char} :
    ∀ c ∈ l.takeWhile p, p c = true := by
  intro c hc
  exact List.mem_takeWhile_imp hc

theorem numToken_some {l g r : List Char} (h : numToken l = some (g, r)) :
    l = g ++ r ∧ goodCore g := by
  unfold numToken at h
  by_cases he : (l.takeWhile isDigitOrComma).isEmpty = true
  · rw [if_pos he] at h; cases h
  · rw [if_neg he] at h
    have hne : l.takeWhile isDigitOrComma ≠ [] := by
      intro hnil; rw [hnil] at he; exact he rfl
    have hsplit := List.takeWhile_append_dropWhile (p := isDigitOrComma) (l := l)
    split at h
    case _ r2 heq =>
      injection h with h1
      injection h1 with hg hr
      subst hg; subst hr
      constructor
      · conv_lhs => rw [← hsplit, heq]
        simp [List.append_assoc, List.takeWhile_append_dropWhile]
      · exact Or.inl ⟨l.takeWhile isDigitOrComma, r2.takeWhile Char.isDigit, rfl, hne,
          mem_takeWhile_true, mem_takeWhile_true⟩
    case _ =>
      injection h with h1
      injection h1 with hg hr
      subst hg; subst hr
      exact ⟨hsplit.symm, Or.inr ⟨hne, mem_takeWhile_true⟩⟩

theorem numToken_restart {g : List Char} (hg : goodCore g) {c : Char}
    (hdc : isDigitOrComma c = false) (hdot : c ≠ '.') (hdig : Char.isDigit c = false) :
    numToken (g ++ [c]) = some (g, [c]) := by
  rcases hg with ⟨A, B, rfl, hAne, hA, hB⟩ | ⟨hne, hall⟩
  · have h1 := takeWhile_all_append (p := isDigitOrComma) hA
      (x := '.') (by decide) (B ++ [c])
    unfold numToken
    rw [List.append_assoc]
    simp only [List.cons_append] at h1 ⊢
    rw [h1.1, h1.2]
    rw [if_neg (by simp [List.isEmpty_iff, hAne])]
    have h2 := takeWhile_all_append (p := Char.isDigit) hB (x := c) hdig []
    simp only [h2.1, h2.2]
  · have h1 := takeWhile_all_append (p := isDigitOrComma) hall (x := c) hdc []
    unfold numToken
    rw [h1.1, h1.2]
    rw [if_neg (by simp [List.isEmpty_iff, hne])]
    split
    case _ r2 heq =>
      exfalso
      injection heq with hh _
      exact hdot hh
    case _ => rfl

theorem space_class {c : Char} (h : pyIsSpace c = true) :
    isDigitOrComma c = false ∧ isDash c = false ∧ c ≠ '(' ∧ c ≠ ')' ∧ isCurrency c = false := by
  simp only [pyIsSpace, Bool.or_eq_true, decide_eq_true_eq] at h
  rcases h with ((((rfl | rfl) | rfl) | rfl) | rfl) | rfl <;> exact by decide

theorem currency_class {c : Char} (h : isCurrency c = true) :
    isDigitOrComma c = false ∧ c ≠ '.' ∧ pyIsSpace c = false ∧ isDash c = false ∧
      c ≠ '(' ∧ c ≠ ')' := by
  simp only [isCurrency, Bool.or_eq_true, decide_eq_true_eq] at h
  rcases h with (((rfl | rfl) | rfl) | rfl) | rfl <;> exact by decide

theorem dash_class {c : Char} (h : isDash c = true) :
    pyIsSpace c = false ∧ isCurrency c = false := by
  simp only [isDash, Bool.or_eq_true, decide_eq_true_eq] at h
  rcases h with (rfl | rfl) | rfl <;> exact by decide

theorem dc_not_space {c : Char} (h : isDigitOrComma c = true) : pyIsSpace c = false := by
  cases hs : pyIsSpace c
  · rfl
  · exact absurd h (by simp [(space_class hs).1])

theorem dc_not_currency {c : Char} (h : isDigitOrComma c = true) : isCurrency c = false := by
  cases hs : isCurrency c
  · rfl
  · exact absurd h (by simp [(currency_class hs).1])

theorem digit_dc {c : Char} (h : Char.isDigit c = true) : isDigitOrComma c = true := by
  simp [isDigitOrComma, h]

theorem goodCore_not_currency {g : List Char} (hg : goodCore g) :
    ∀ c ∈ g, isCurrency c = false := by
  rcases hg with ⟨A, B, rfl, _, hA, hB⟩ | ⟨_, hall⟩
  · intro c hc
    rcases List.mem_append.mp hc with hc | hc
    · exact dc_not_currency (hA c hc)
    · rcases List.mem_cons.mp hc with rfl | hc
      · decide
      · exact dc_not_currency (digit_dc (hB c hc))
  · exact fun c hc => dc_not_currency (hall c hc)

theorem goodCore_head {g : List Char} (hg : goodCore g) :
    ∃ a t, g = a :: t ∧ isDigitOrComma a = true := by
  rcases hg with ⟨A, B, rfl, hAne, hA, _⟩ | ⟨hne, hall⟩
  · cases A with
    | nil => exact absurd rfl hAne
    | cons a A' => exact ⟨a, A' ++ '.' :: B, by simp, hA a (by simp)⟩
  · cases g with
    | nil => exact absurd rfl hne
    | cons a t => exact ⟨a, t, rfl, hall a (by simp)⟩

theorem removeCurrency_eq_self {t : List Char} (h : ∀ c ∈ t, isCurrency c = false) :
    removeCurrency t = t := by
  unfold removeCurrency
  rw [List.filter_eq_self]
  intro a ha
  simp [h a ha]

theorem matchTrailing_some {t g : List Char} (h : matchTrailing t = some g) :
    ∃ rest, numToken t = some (g, rest) ∧
      (∀ c ∈ rest, pyIsSpace c = true ∨ isDash c = true) ∧
      t = g ++ rest ∧ goodCore g := by
  unfold matchTrailing at h
  split at h
  case _ => cases h
  case _ g0 rest hn =>
    split at h
    case _ d rest2 hd =>
      split_ifs at h with hcond
      case _ =>
        injection h with h1
        subst h1
        obtain ⟨hdash, hempty⟩ := Bool.and_eq_true_iff.mp hcond
        have hrest : rest = rest.takeWhile pyIsSpace ++ d :: rest2 := by
          conv_lhs => rw [← List.takeWhile_append_dropWhile (p := pyIsSpace) (l := rest), hd]
        have hmem : ∀ c ∈ rest, pyIsSpace c = true ∨ isDash c = true := by
          intro c hc
          rw [hrest] at hc
          rcases List.mem_append.mp hc with hc | hc
          · exact Or.inl (mem_takeWhile_true c hc)
          · rcases List.mem_cons.mp hc with rfl | hc
            · exact Or.inr hdash
            · have hall : ∀ x ∈ rest2, pyIsSpace x = true := by
                rw [← List.dropWhile_eq_nil_iff]
                simpa using hempty
              exact Or.inl (hall c hc)
        obtain ⟨ht, hg⟩ := numToken_some hn
        exact ⟨rest, hn, hmem, ht, hg⟩
    case _ => cases h

theorem matchTrailing_canon {t g : List Char} (h : matchTrailing t = some g) :
    matchTrailing (g ++ ['-']) = some g := by
  obtain ⟨rest, _, _, _, hg⟩ := matchTrailing_some h
  have h1 : numToken (g ++ ['-']) = some (g, ['-']) :=
    numToken_restart hg (by decide) (by decide) (by decide)
  unfold matchTrailing
  rw [h1]
  rfl

theorem matchParen_some {t g : List Char} (h : matchParen t = some g) :
    t = '(' :: (g ++ [')']) ∧ goodCore g := by
  unfold matchParen at h
  split at h
  case _ r =>
    cases hn : numToken r with
    | none => rw [hn] at h; cases h
    | some p =>
      obtain ⟨g0, rest⟩ := p
      rw [hn] at h
      cases rest with
      | nil => cases h
      | cons x xs =>
        by_cases hx : x = ')'
        · subst hx
          cases xs with
          | nil =>
            injection h with h1
            subst h1
            obtain ⟨hr, hg⟩ := numToken_some hn
            exact ⟨by rw [hr], hg⟩
          | cons y ys => simp at h
        · exfalso
          cases xs with
          | nil =>
            -- the arm `some (g, [')'])` does not match since x ≠ ')'
            revert h
            simp [hx]
          | cons y ys => simp at h
  case _ => cases h

theorem matchParen_canon {g : List Char} (hg : goodCore g) :
    matchParen ('(' :: (g ++ [')'])) = some g := by
  have h1 : numToken (g ++ [')']) = some (g, [')']) :=
    numToken_restart hg (by decide) (by decide) (by decide)
  simp only [matchParen]
  rw [h1]
  rfl

theorem matchTrailing_open_none (x : List Char) : matchTrailing ('(' :: x) = Option.none := by
  have hdc : isDigitOrComma '(' = false := by decide
  unfold matchTrailing numToken
  simp [List.takeWhile_cons, hdc]

theorem strip_canon_trailing {g : List Char} (hg : goodCore g) :
    stripChars (g ++ ['-']) = g ++ ['-'] := by
  obtain ⟨a, t, rfl, hdc⟩ := goodCore_head hg
  have he : (a :: t) ++ ['-'] = a :: (t ++ ['-']) := by simp
  rw [he]
  exact strip_noop t (dc_not_space hdc) (by decide)

theorem strip_canon_paren (g : List Char) :
    stripChars ('(' :: (g ++ [')'])) = '(' :: (g ++ [')']) :=
  strip_noop g (by decide) (by decide)

theorem fixChars_of_blank {l : List Char} (h : (stripChars l).isEmpty = true) :
    fixChars l = l := by
  unfold fixChars
  rw [if_pos h]

theorem fixChars_of_trailing {l g : List Char} (h0 : (stripChars l).isEmpty = false)
    (h : matchTrailing (stripChars l) = some g) : fixChars l = g ++ ['-'] := by
  unfold fixChars
  rw [if_neg (by simp [h0]), h]

theorem fixChars_of_paren {l g : List Char} (h0 : (stripChars l).isEmpty = false)
    (hT : matchTrailing (stripChars l) = Option.none)
    (hP : matchParen (stripChars l) = some g) : fixChars l = '(' :: (g ++ [')']) := by
  unfold fixChars
  rw [if_neg (by simp [h0]), hT, hP]

theorem fixChars_of_nomatch {l : List Char} (h0 : (stripChars l).isEmpty = false)
    (hT : matchTrailing (stripChars l) = Option.none)
    (hP : matchParen (stripChars l) = Option.none) : fixChars l = stripChars l := by
  unfold fixChars
  rw [if_neg (by simp [h0]), hT, hP]

theorem fixChars_idem (l : List Char) : fixChars (fixChars l) = fixChars l := by
  by_cases h0 : (stripChars l).isEmpty = true
  · have e := fixChars_of_blank h0
    rw [e, e]
  · have h0' : (stripChars l).isEmpty = false := by
      cases h : (stripChars l).isEmpty
      · rfl
      · exact absurd h h0
    cases hT : matchTrailing (stripChars l) with
    | some g =>
      obtain ⟨rest, _, _, _, hg⟩ := matchTrailing_some hT
      have hsc : stripChars (g ++ ['-']) = g ++ ['-'] := strip_canon_trailing hg
      rw [fixChars_of_trailing h0' hT]
      unfold fixChars
      rw [hsc, if_neg (by simp), matchTrailing_canon hT]
    | none =>
      cases hP : matchParen (stripChars l) with
      | some g =>
        obtain ⟨hweq, hg⟩ := matchParen_some hP
        have hsc : stripChars ('(' :: (g ++ [')'])) = '(' :: (g ++ [')']) :=
          strip_canon_paren g
        rw [fixChars_of_paren h0' hT hP]
        unfold fixChars
        rw [hsc, if_neg (by simp), matchTrailing_open_none, matchParen_canon hg]
      | none =>
        rw [fixChars_of_nomatch h0' hT hP]
        unfold fixChars
        rw [stripChars_idem, if_neg (by simp [h0']), hT, hP]

theorem parseChars_strip {d : List Char} (h0 : (stripChars d).isEmpty = false) :
    parseChars (stripChars d) = parseChars d := by
  have hdne : d.isEmpty = false := by
    cases d with
    | nil => exact absurd h0 (by decide)
    | cons a t => rfl
  simp only [parseChars, stripChars_idem, h0, hdne, Bool.false_eq_true, if_false]

theorem parseChars_fixChars (d : List Char) : parseChars (fixChars d) = parseChars d := by
  by_cases h0 : (stripChars d).isEmpty = true
  · rw [fixChars_of_blank h0]
  · have h0' : (stripChars d).isEmpty = false := by
      cases h : (stripChars d).isEmpty
      · rfl
      · exact absurd h h0
    cases hT : matchTrailing (stripChars d) with
    | some g =>
      obtain ⟨rest, hn, hmem, hteq, hg⟩ := matchTrailing_some hT
      have hcur : removeCurrency (stripChars d) = stripChars d := by
        apply removeCurrency_eq_self
        intro c hc
        rw [hteq] at hc
        rcases List.mem_append.mp hc with hc | hc
        · exact goodCore_not_currency hg c hc
        · rcases hmem c hc with hs | hdd
          · exact (space_class hs).2.2.2.2
          · exact (dash_class hdd).2
      have hcur2 : removeCurrency (g ++ ['-']) = g ++ ['-'] := by
        apply removeCurrency_eq_self
        intro c hc
        rcases List.mem_append.mp hc with hc | hc
        · exact goodCore_not_currency hg c hc
        · have hc' : c = '-' := by simpa using hc
          subst hc'; decide
      have hsc : stripChars (g ++ ['-']) = g ++ ['-'] := strip_canon_trailing hg
      have hdne : d.isEmpty = false := by
        cases d with
        | nil => exact absurd h0' (by decide)
        | cons a t => rfl
      have hgne : (g ++ ['-']).isEmpty = false := by cases g <;> rfl
      rw [fixChars_of_trailing h0' hT]
      simp only [parseChars, hsc, hgne, h0', hdne, Bool.false_eq_true, if_false,
        hcur, hcur2]
      unfold parseCore
      rw [matchTrailing_canon hT, hT]
    | none =>
      have hstrip := parseChars_strip h0'
      cases hP : matchParen (stripChars d) with
      | some g =>
        obtain ⟨hweq, hg⟩ := matchParen_some hP
        rw [fixChars_of_paren h0' hT hP, ← hweq, hstrip]
      | none =>
        rw [fixChars_of_nomatch h0' hT hP, hstrip]

theorem PyVal.inductionOn (P : PyVal → Prop)
    (h1 : ∀ s, P (.str s)) (h2 : ∀ q, P (.num q)) (h3 : ∀ b, P (.bool b))
    (h4 : P .none)
    (h5 : ∀ l, (∀ x ∈ l, P x) → P (.list l))
    (h6 : ∀ l, (∀ kv ∈ l, P kv.2) → P (.dict l)) :
    ∀ v, P v
  | .str s => h1 s
  | .num q => h2 q
  | .bool b => h3 b
  | .none => h4
  | .list l => h5 l (fun x hx => PyVal.inductionOn P h1 h2 h3 h4 h5 h6 x)
  | .dict l => h6 l (fun kv hkv => PyVal.inductionOn P h1 h2 h3 h4 h5 h6 kv.2)
decreasing_by
  · exact Nat.lt_trans (List.sizeOf_lt_of_mem hx) (by simp)
  · calc sizeOf kv.2 < sizeOf kv := by obtain ⟨a, b⟩ := kv; simp
      _ < sizeOf l := List.sizeOf_lt_of_mem hkv
      _ < sizeOf (PyVal.dict l) := by simp

theorem fix_trailing_minus_idem (s : String) :
    fix_trailing_minus (fix_trailing_minus s) = fix_trailing_minus s := by
  unfold fix_trailing_minus
  have hd : ((fixChars s.data).asString).data = fixChars s.data := rfl
  rw [hd, fixChars_idem]

/-- Unfolded form of `post_process_amounts` on dict fields: the pointwise map. -/
theorem postFields_map (l : List (String × PyVal)) :
    postFields l = l.map (fun kv => (kv.1, post_process_amounts kv.2)) := by
  induction l with
  | nil => rfl
  | cons kv r ih => obtain ⟨k, v⟩ := kv; simp [postFields, ih]

/-- Unfolded form of `post_process_amounts` on list elements: the pointwise map. -/
theorem postElems_map (l : List PyVal) :
    postElems l = l.map post_process_amounts := by
  induction l with
  | nil => rfl
  | cons v r ih => simp [postElems, ih]

theorem post_process_amounts_idem (v : PyVal) :
    post_process_amounts (post_process_amounts v) = post_process_amounts v := by
  induction v using PyVal.inductionOn with
  | h1 s => simp [post_process_amounts, fix_trailing_minus_idem]
  | h2 q => rfl
  | h3 b => rfl
  | h4 => rfl
  | h5 l ih =>
    simp only [post_process_amounts, postElems_map, PyVal.list.injEq, List.map_map]
    apply List.map_congr_left
    intro x hx
    exact ih x hx
  | h6 l ih =>
    simp only [post_process_amounts, postFields_map, PyVal.dict.injEq, List.map_map]
    apply List.map_congr_left
    intro kv hkv
    simp only [Function.comp]
    exact congrArg (fun w => (kv.1, w)) (ih kv hkv)

theorem eraseFields_map (l : List (String × PyVal)) :
    eraseFields l = l.map (fun kv => (kv.1, eraseStrings kv.2)) := by
  induction l with
  | nil => rfl
  | cons kv r ih => obtain ⟨k, v⟩ := kv; simp [eraseFields, ih]

theorem eraseElems_map (l : List PyVal) :
    eraseElems l = l.map eraseStrings := by
  induction l with
  | nil => rfl
  | cons v r ih => simp [eraseElems, ih]

theorem eraseStrings_post (v : PyVal) :
    eraseStrings (post_process_amounts v) = eraseStrings v := by
  induction v using PyVal.inductionOn with
  | h1 s => rfl
  | h2 q => rfl
  | h3 b => rfl
  | h4 => rfl
  | h5 l ih =>
    simp only [post_process_amounts, eraseStrings, postElems_map, eraseElems_map,
      PyVal.list.injEq, List.map_map]
    apply List.map_congr_left
    intro x hx
    exact ih x hx
  | h6 l ih =>
    simp only [post_process_amounts, eraseStrings, postFields_map, eraseFields_map,
      PyVal.dict.injEq, List.map_map]
    apply List.map_congr_left
    intro kv hkv
    simp only [Function.comp]
    exact congrArg (fun w => (kv.1, w)) (ih kv hkv)

/- ## Dict-update lemmas and `normalize_output_structure` facts -/

theorem lookupKey_setKey_self (l : List (String × PyVal)) (k : String) (v : PyVal) :
    lookupKey (setKey l k v) k = some v := by
  induction l with
  | nil => simp [setKey, lookupKey]
  | cons p r ih =>
    obtain ⟨k', v'⟩ := p
    by_cases h : k' = k
    · subst h; simp [setKey, lookupKey]
    · simp [setKey, lookupKey, h, ih]

theorem lookupKey_setKey_other (l : List (String × PyVal)) {k k' : String} (v : PyVal)
    (h : k' ≠ k) : lookupKey (setKey l k v) k' = lookupKey l k' := by
  have hne : ¬ k = k' := fun hh => h hh.symm
  induction l with
  | nil => simp only [setKey, lookupKey, if_neg hne]
  | cons p r ih =>
    obtain ⟨a, b⟩ := p
    by_cases ha : a = k
    · subst ha
      simp only [setKey, if_pos rfl, lookupKey, if_neg hne]
    · simp only [setKey, if_neg ha, lookupKey, ih]

theorem hasKey_setKey_self (l : List (String × PyVal)) (k : String) (v : PyVal) :
    hasKey (setKey l k v) k = true := by
  simp [hasKey, lookupKey_setKey_self]

theorem hasKey_setKey_other (l : List (String × PyVal)) {k k' : String} (v : PyVal)
    (h : k' ≠ k) : hasKey (setKey l k v) k' = hasKey l k' := by
  simp [hasKey, lookupKey_setKey_other l v h]

theorem setKey_of_not_hasKey {l : List (String × PyVal)} {k : String} (v : PyVal)
    (h : hasKey l k = false) : setKey l k v = l ++ [(k, v)] := by
  induction l with
  | nil => rfl
  | cons p r ih =>
    obtain ⟨k', v'⟩ := p
    by_cases hk : k' = k
    · exfalso
      rw [hasKey, lookupKey, if_pos hk] at h
      simp at h
    · rw [hasKey, lookupKey, if_neg hk] at h
      simp [setKey, hk, ih h]

/-- One `if k not in d: d[k] = 0` step on a dict. -/
theorem fixStep (l : List (String × PyVal)) (k : String) :
    ∃ l', (if hasKey l k then Except.ok (PyVal.dict l)
            else pySetItem (.dict l) k (.num 0)) = .ok (.dict l') ∧
      hasKey l' k = true ∧ ∀ k2, k2 ≠ k → hasKey l' k2 = hasKey l k2 := by
  by_cases h : hasKey l k = true
  · exact ⟨l, by simp [h], h, fun k2 _ => rfl⟩
  · have h' : hasKey l k = false := by
      cases hh : hasKey l k
      · rfl
      · exact absurd hh h
    exact ⟨setKey l k (.num 0), by simp [h', pySetItem],
      hasKey_setKey_self l k _, fun k2 hk2 => hasKey_setKey_other l _ hk2⟩

theorem fixSummary_dict (l : List (String × PyVal)) :
    ∃ l', fixSummary (.dict l) = .ok (.dict l') ∧
      hasKey l' "total_nsf_fees" = true ∧ hasKey l' "unique_days_with_nsf" = true ∧
      hasKey l' "max_nsfs_in_any_7day_window" = true := by
  unfold fixSummary
  simp only [pyContains]
  obtain ⟨l1, e1, hk1, hp1⟩ := fixStep l "total_nsf_fees"
  rw [e1]
  simp only [pyContains]
  obtain ⟨l2, e2, hk2, hp2⟩ := fixStep l1 "unique_days_with_nsf"
  rw [e2]
  simp only [pyContains]
  obtain ⟨l3, e3, hk3, hp3⟩ := fixStep l2 "max_nsfs_in_any_7day_window"
  rw [e3]
  refine ⟨l3, rfl, ?_, ?_, hk3⟩
  · rw [hp3 _ (by decide), hp2 _ (by decide)]
    exact hk1
  · rw [hp3 _ (by decide)]
    exact hk2

theorem fixSummary_nondict {s s' : PyVal} (hs : s.isDict = false)
    (h : fixSummary s = .ok s') : s' = s := by
  have hset : ∀ k x, pySetItem s k x = Except.error () := by
    intro k x
    cases s with
    | dict l => simp [PyVal.isDict] at hs
    | str a => rfl
    | num a => rfl
    | bool a => rfl
    | none => rfl
    | list a => rfl
  have hcon : ∀ k, pyContains k s = Except.error () ∨ ∃ b, pyContains k s = Except.ok b := by
    intro k
    cases s with
    | dict l => simp [PyVal.isDict] at hs
    | str a => exact Or.inr ⟨_, rfl⟩
    | list a => exact Or.inr ⟨_, rfl⟩
    | num q => exact Or.inl rfl
    | bool b => exact Or.inl rfl
    | none => exact Or.inl rfl
  unfold fixSummary at h
  rcases hcon "total_nsf_fees" with hc1 | ⟨b1, hc1⟩
  · rw [hc1] at h; cases h
  · rw [hc1] at h
    simp only [] at h
    cases b1 with
    | false =>
      rw [if_neg (by decide), hset] at h
      simp only [] at h
      cases h
    | true =>
      rw [if_pos (by decide)] at h
      simp only [] at h
      rcases hcon "unique_days_with_nsf" with hc2 | ⟨b2, hc2⟩
      · rw [hc2] at h; cases h
      · rw [hc2] at h
        simp only [] at h
        cases b2 with
        | false =>
          rw [if_neg (by decide), hset] at h
          simp only [] at h
          cases h
        | true =>
          rw [if_pos (by decide)] at h
          simp only [] at h
          rcases hcon "max_nsfs_in_any_7day_window" with hc3 | ⟨b3, hc3⟩
          · rw [hc3] at h; cases h
          · rw [hc3] at h
            simp only [] at h
            cases b3 with
            | false =>
              rw [if_neg (by decide), hset] at h
              cases h
            | true =>
              rw [if_pos (by decide)] at h
              injection h with h1
              exact h1.symm

theorem fixSummary_ok_dict {s s' : PyVal} (h : fixSummary s = .ok s') :
    ∀ sl, s' = .dict sl →
      hasKey sl "total_nsf_fees" = true ∧ hasKey sl "unique_days_with_nsf" = true ∧
      hasKey sl "max_nsfs_in_any_7day_window" = true := by
  intro sl hsl
  by_cases hd : s.isDict = true
  · cases s with
    | dict l =>
      obtain ⟨l', e, k1, k2, k3⟩ := fixSummary_dict l
      rw [e] at h
      injection h with h1
      rw [← h1] at hsl
      injection hsl with h2
      subst h2
      exact ⟨k1, k2, k3⟩
    | str s0 => simp [PyVal.isDict] at hd
    | list l0 => simp [PyVal.isDict] at hd
    | num q => simp [PyVal.isDict] at hd
    | bool b => simp [PyVal.isDict] at hd
    | none => simp [PyVal.isDict] at hd
  · exfalso
    have hd' : s.isDict = false := by
      cases hh : s.isDict
      · rfl
      · exact absurd hh hd
    have := fixSummary_nondict hd' h
    subst this
    rw [hsl] at hd'
    simp [PyVal.isDict] at hd'

theorem fixNsf_ok {n m : PyVal} (h : fixNsf n = .ok m) :
    ∃ ml, m = .dict ml ∧ hasKey ml "events" = true ∧ hasKey ml "summary" = true ∧
      ∀ sl, lookupKey ml "summary" = some (.dict sl) →
        hasKey sl "total_nsf_fees" = true ∧ hasKey sl "unique_days_with_nsf" = true ∧
        hasKey sl "max_nsfs_in_any_7day_window" = true := by
  cases n with
  | dict l =>
    unfold fixNsf at h
    simp only [] at h
    have hev : hasKey (if hasKey l "events" then l else setKey l "events" (.list []))
        "events" = true := by
      by_cases he : hasKey l "events" = true
      · simp [he]
      · have he' : hasKey l "events" = false := by
          cases hh : hasKey l "events"
          · rfl
          · exact absurd hh he
        simp [he', hasKey_setKey_self]
    set l1 := if hasKey l "events" then l else setKey l "events" (.list []) with hl1
    by_cases hsum : hasKey l1 "summary" = true
    · rw [if_pos hsum] at h
      cases hlk : lookupKey l1 "summary" with
      | none =>
        exfalso
        rw [hasKey, hlk] at hsum
        simp at hsum
      | some s =>
        rw [hlk] at h
        simp only [] at h
        cases hfs : fixSummary s with
        | error e => rw [hfs] at h; simp only [] at h; cases h
        | ok s' =>
          rw [hfs] at h
          simp only [] at h
          injection h with h1
          refine ⟨setKey l1 "summary" s', h1.symm, ?_, hasKey_setKey_self _ _ _, ?_⟩
          · rw [hasKey_setKey_other _ _ (by decide)]
            exact hev
          · intro sl hsl
            rw [lookupKey_setKey_self] at hsl
            injection hsl with h2
            exact fixSummary_ok_dict hfs sl h2
    · rw [if_neg hsum] at h
      injection h with h1
      refine ⟨setKey l1 "summary" defaultSummary, h1.symm, ?_,
        hasKey_setKey_self _ _ _, ?_⟩
      · rw [hasKey_setKey_other _ _ (by decide)]
        exact hev
      · intro sl hsl
        rw [lookupKey_setKey_self] at hsl
        injection hsl with h2
        rw [defaultSummary] at h2
        injection h2 with h3
        subst h3
        exact ⟨by decide, by decide, by decide⟩
  | str a =>
    unfold fixNsf at h
    simp only [] at h
    injection h with h1
    exact ⟨_, h1.symm, by decide, by decide, fun sl hsl => by
      rw [show lookupKey [("events", PyVal.list []), ("summary", defaultSummary)] "summary"
          = some defaultSummary from rfl] at hsl
      injection hsl with h2
      rw [defaultSummary] at h2
      injection h2 with h3
      subst h3
      exact ⟨by decide, by decide, by decide⟩⟩
  | num q =>
    unfold fixNsf at h
    simp only [] at h
    injection h with h1
    exact ⟨_, h1.symm, by decide, by decide, fun sl hsl => by
      rw [show lookupKey [("events", PyVal.list []), ("summary", defaultSummary)] "summary"
          = some defaultSummary from rfl] at hsl
      injection hsl with h2
      rw [defaultSummary] at h2
      injection h2 with h3
      subst h3
      exact ⟨by decide, by decide, by decide⟩⟩
  | bool b =>
    unfold fixNsf at h
    simp only [] at h
    injection h with h1
    exact ⟨_, h1.symm, by decide, by decide, fun sl hsl => by
      rw [show lookupKey [("events", PyVal.list []), ("summary", defaultSummary)] "summary"
          = some defaultSummary from rfl] at hsl
      injection hsl with h2
      rw [defaultSummary] at h2
      injection h2 with h3
      subst h3
      exact ⟨by decide, by decide, by decide⟩⟩
  | none =>
    unfold fixNsf at h
    simp only [] at h
    injection h with h1
    exact ⟨_, h1.symm, by decide, by decide, fun sl hsl => by
      rw [show lookupKey [("events", PyVal.list []), ("summary", defaultSummary)] "summary"
          = some defaultSummary from rfl] at hsl
      injection hsl with h2
      rw [defaultSummary] at h2
      injection h2 with h3
      subst h3
      exact ⟨by decide, by decide, by decide⟩⟩
  | list a =>
    unfold fixNsf at h
    simp only [] at h
    injection h with h1
    exact ⟨_, h1.symm, by decide, by decide, fun sl hsl => by
      rw [show lookupKey [("events", PyVal.list []), ("summary", defaultSummary)] "summary"
          = some defaultSummary from rfl] at hsl
      injection hsl with h2
      rw [defaultSummary] at h2
      injection h2 with h3
      subst h3
      exact ⟨by decide, by decide, by decide⟩⟩

theorem fixNsf_sum_ok {l : List (String × PyVal)}
    (hok : ∀ s, lookupKey l "summary" = some s → s.isDict = true) :
    ∃ m, fixNsf (.dict l) = .ok m := by
  unfold fixNsf
  simp only []
  set l1 := if hasKey l "events" then l else setKey l "events" (.list []) with hl1
  have hlk : lookupKey l1 "summary" = lookupKey l "summary" := by
    rw [hl1]
    by_cases he : hasKey l "events" = true
    · simp [he]
    · have he' : hasKey l "events" = false := by
        cases hh : hasKey l "events"
        · rfl
        · exact absurd hh he
      simp only [he', Bool.false_eq_true, if_false]
      exact lookupKey_setKey_other l _ (by decide)
  by_cases hsum : hasKey l1 "summary" = true
  · rw [if_pos hsum]
    cases hs : lookupKey l1 "summary" with
    | none => exact ⟨_, rfl⟩
    | some s =>
      have hsd : s.isDict = true := hok s (by rw [← hlk]; exact hs)
      cases s with
      | dict sl =>
        obtain ⟨l', e, _, _, _⟩ := fixSummary_dict sl
        dsimp only
        rw [e]
        exact ⟨_, rfl⟩
      | str a => simp [PyVal.isDict] at hsd
      | num q => simp [PyVal.isDict] at hsd
      | bool b => simp [PyVal.isDict] at hsd
      | none => simp [PyVal.isDict] at hsd
      | list a => simp [PyVal.isDict] at hsd
  · rw [if_neg hsum]
    exact ⟨_, rfl⟩

theorem normalize_ok_of_nsfOk {v : PyVal} (hv : nsfSummaryOk v) :
    ∃ r, normalize_output_structure v = .ok r ∧ r.isDict = true := by
  suffices h : ∃ m, fixNsf (nsfField (coerceDict v)) = .ok m by
    obtain ⟨m, hm⟩ := h
    unfold normalize_output_structure
    rw [hm]
    exact ⟨_, rfl, rfl⟩
  cases v with
  | dict l =>
    cases hg : lookupKey l "nsf_data" with
    | none =>
      have hnf : nsfField (coerceDict (.dict l)) = defaultNsf := by
        simp [nsfField, coerceDict, pyGetD, PyVal.isDict, hg]
      rw [hnf]
      exact ⟨_, rfl⟩
    | some g0 =>
      cases g0 with
      | dict nl =>
        have hnf : nsfField (coerceDict (.dict l)) = .dict nl := by
          simp [nsfField, coerceDict, pyGetD, PyVal.isDict, hg]
        rw [hnf]
        apply fixNsf_sum_ok
        intro s hs
        unfold nsfSummaryOk at hv
        dsimp only at hv
        rw [hg] at hv
        dsimp only at hv
        rw [hs] at hv
        dsimp only at hv
        exact hv
      | str a =>
        have hnf : nsfField (coerceDict (.dict l)) = defaultNsf := by
          simp [nsfField, coerceDict, pyGetD, PyVal.isDict, hg]
        rw [hnf]; exact ⟨_, rfl⟩
      | num q =>
        have hnf : nsfField (coerceDict (.dict l)) = defaultNsf := by
          simp [nsfField, coerceDict, pyGetD, PyVal.isDict, hg]
        rw [hnf]; exact ⟨_, rfl⟩
      | bool b =>
        have hnf : nsfField (coerceDict (.dict l)) = defaultNsf := by
          simp [nsfField, coerceDict, pyGetD, PyVal.isDict, hg]
        rw [hnf]; exact ⟨_, rfl⟩
      | none =>
        have hnf : nsfField (coerceDict (.dict l)) = defaultNsf := by
          simp [nsfField, coerceDict, pyGetD, PyVal.isDict, hg]
        rw [hnf]; exact ⟨_, rfl⟩
      | list a =>
        have hnf : nsfField (coerceDict (.dict l)) = defaultNsf := by
          simp [nsfField, coerceDict, pyGetD, PyVal.isDict, hg]
        rw [hnf]; exact ⟨_, rfl⟩
  | str s => exact ⟨_, rfl⟩
  | num q => exact ⟨_, rfl⟩
  | bool b => exact ⟨_, rfl⟩
  | none => exact ⟨_, rfl⟩
  | list a => exact ⟨_, rfl⟩

theorem normalize_ok_shape {v r : PyVal} (h : normalize_output_structure v = .ok r) :
    ∃ nsf, fixNsf (nsfField (coerceDict v)) = .ok nsf ∧
      r = .dict (recordFields (coerceDict v) nsf) := by
  unfold normalize_output_structure at h
  cases hf : fixNsf (nsfField (coerceDict v)) with
  | error e => rw [hf] at h; cases h
  | ok nsf =>
    rw [hf] at h
    simp only [] at h
    injection h with h1
    exact ⟨nsf, rfl, h1.symm⟩

theorem listField_isList (d : PyVal) (k : String) : (listField d k).isList = true := by
  unfold listField
  cases h : (pyGetD d k PyVal.none).isList
  · rw [if_neg (by decide)]
    rfl
  · rw [if_pos rfl]
    exact h

/-- The final (plain-number) branch of `parseCore`: when neither sign
pattern matches and the text does not start with `-`, the result is the
`try/except`-guarded `float` of the comma-stripped text. -/
theorem parseCore_plain {u : List Char} (hT : matchTrailing u = Option.none)
    (hP : matchParen u = Option.none) (hM : startsWithMinus u = false) :
    parseCore u = (match pyFloat (removeCommas u) with
      | some q => Except.ok q
      | Option.none => Except.ok 0) := by
  unfold parseCore
  rw [hT, hP]
  dsimp only
  cases u with
  | nil => rfl
  | cons c rest =>
    by_cases hc : c = '-'
    · subst hc
      simp [startsWithMinus] at hM
    · split
      case _ r heq =>
        exfalso
        injection heq with h1 _
        exact hc h1
      case _ => rfl

/- ## Claim theorems -/

/-- C2 counterexample: the Structure Normalizer *does* raise on a dict
input whose `nsf_data` is a dict with a non-dict `summary`: Python
executes `summary["total_nsf_fees"] = 0` on the string `"abc"`, a
`TypeError` (modelled as `.error ()`). -/
theorem normalize_raises_on_string_summary :
    normalize_output_structure
      (.dict [("nsf_data", .dict [("summary", .str "abc")])]) = .error () := by rfl

/-- C2 (amended): `normalize_output_structure` raises no exception and
returns a record (a dict) for every input whose `nsf_data` is not a
dict, or lacks a `summary` key, or has a dict-typed `summary`; only a
present non-dict `summary` inside a dict `nsf_data` can raise. -/
theorem normalize_no_raise_of_summary_wellformed :
    ∀ v : PyVal, nsfSummaryOk v →
      ∃ r, normalize_output_structure v = .ok r ∧ r.isDict = true :=
  fun _ hv => normalize_ok_of_nsfOk hv

/-- Witness for the amended C2 theorem at the concrete input `None`. -/
theorem normalize_no_raise_witness :
    ∃ r, normalize_output_structure PyVal.none = .ok r ∧ r.isDict = true :=
  normalize_no_raise_of_summary_wellformed PyVal.none trivial

/-- C5 counterexample: a present wrong-typed `is_bank_statement` (a
string) and a truthy non-string `company_name` (a number) are passed
through unchanged, so the boolean field is not a boolean and the scalar
field is neither a string nor null. -/
theorem normalize_passes_wrong_types_through :
    ∃ r, normalize_output_structure
        (.dict [("is_bank_statement", .str "yes"), ("company_name", .num 5)]) = .ok r ∧
      pyGetD r "is_bank_statement" .none = .str "yes" ∧
      (∀ b : Bool, pyGetD r "is_bank_statement" .none ≠ .bool b) ∧
      pyGetD r "company_name" .none = .num 5 := by
  refine ⟨_, rfl, rfl, ?_, rfl⟩
  intro b hb
  exact PyVal.noConfusion hb

/-- C5 (amended): whenever the Structure Normalizer returns, the result
is a dict with exactly the fourteen §3 keys in order; the four list
fields are sequences; `nsf_data` is a dict containing `events` and
`summary` keys, and whenever its `summary` value is a dict it contains
the three numeric sub-fields.  (Scalar and boolean fields carry the
input values unchecked; see the counterexample.) -/
theorem normalize_shape_when_ok :
    ∀ v r : PyVal, normalize_output_structure v = .ok r →
      dictKeys r = ["company_name", "bank_name", "is_bank_statement",
        "is_application_form", "currency", "statement_period", "account_number",
        "transactions", "daily_ending_balance", "cheques", "fees",
        "starting_balance", "ending_balance", "nsf_data"] ∧
      (pyGetD r "transactions" .none).isList = true ∧
      (pyGetD r "daily_ending_balance" .none).isList = true ∧
      (pyGetD r "cheques" .none).isList = true ∧
      (pyGetD r "fees" .none).isList = true ∧
      (pyGetD r "nsf_data" .none).isDict = true ∧
      hasKeyP (pyGetD r "nsf_data" .none) "events" = true ∧
      hasKeyP (pyGetD r "nsf_data" .none) "summary" = true ∧
      ∀ nl sl, pyGetD r "nsf_data" .none = .dict nl →
        lookupKey nl "summary" = some (.dict sl) →
        hasKey sl "total_nsf_fees" = true ∧ hasKey sl "unique_days_with_nsf" = true ∧
        hasKey sl "max_nsfs_in_any_7day_window" = true := by
  intro v r h
  obtain ⟨nsf, hf, hr⟩ := normalize_ok_shape h
  obtain ⟨ml, hml, hev, hsum, hsub⟩ := fixNsf_ok hf
  subst hr
  subst hml
  refine ⟨rfl, listField_isList _ _, listField_isList _ _, listField_isList _ _,
    listField_isList _ _, rfl, hev, hsum, ?_⟩
  intro nl sl hnl hsl
  have hnl' : PyVal.dict ml = PyVal.dict nl := hnl
  injection hnl' with h2
  subst h2
  exact hsub sl hsl

/-- Witness for the amended C5 theorem at the concrete input `None`. -/
theorem normalize_shape_witness :
    ∃ r, normalize_output_structure PyVal.none = .ok r ∧
      (pyGetD r "transactions" PyVal.none).isList = true ∧
      (pyGetD r "nsf_data" PyVal.none).isDict = true := by
  refine ⟨_, rfl, ?_, ?_⟩
  · exact (normalize_shape_when_ok PyVal.none _ rfl).2.1
  · exact (normalize_shape_when_ok PyVal.none _ rfl).2.2.2.2.2.1

/-- C9: the boolean fields use a presence check, not a truthiness
check: a present `False` stays `False`, a present `True` stays `True`,
and an absent key defaults to `False` (for both `is_bank_statement` and
`is_application_form`). -/
theorem normalize_boolean_presence_check :
    (∀ b : Bool, ∃ r,
      normalize_output_structure (.dict [("is_bank_statement", .bool b)]) = .ok r ∧
        pyGetD r "is_bank_statement" .none = .bool b) ∧
    (∀ b : Bool, ∃ r,
      normalize_output_structure (.dict [("is_application_form", .bool b)]) = .ok r ∧
        pyGetD r "is_application_form" .none = .bool b) ∧
    (∃ r, normalize_output_structure (.dict []) = .ok r ∧
      pyGetD r "is_bank_statement" .none = .bool false ∧
      pyGetD r "is_application_form" .none = .bool false) := by
  refine ⟨fun b => ⟨_, rfl, rfl⟩, fun b => ⟨_, rfl, rfl⟩, _, rfl, rfl, rfl⟩

/-- C6: fixing the sign notation never changes the parsed numeric
value (nor the raise behaviour): parsing after `fix_trailing_minus`
agrees exactly with parsing the original string. -/
theorem parse_amount_after_fix_eq :
    ∀ s : String, parse_amount_to_float (.str (fix_trailing_minus s)) =
      parse_amount_to_float (.str s) := by
  intro s
  show parseChars ((fixChars s.data).asString).data = parseChars s.data
  have hd : ((fixChars s.data).asString).data = fixChars s.data := rfl
  rw [hd]
  exact parseChars_fixChars s.data

/-- C7: `post_process_amounts` is idempotent on every JSON-like value:
applying it twice yields the same result as applying it once. -/
theorem post_process_amounts_is_idempotent :
    ∀ v : PyVal, post_process_amounts (post_process_amounts v) = post_process_amounts v :=
  post_process_amounts_idem

/-- C8: `post_process_amounts` preserves JSON shape: erasing every
string leaf of the output gives the erasure of the input, so mapping
keys and their order, sequence lengths and order, and every non-string
leaf are unchanged — only string leaves may differ.  The extra
conjuncts spell out the key/length preservation and the fixed
non-string leaves. -/
theorem post_process_amounts_preserves_shape :
    (∀ v : PyVal, eraseStrings (post_process_amounts v) = eraseStrings v) ∧
    (∀ l, dictKeys (post_process_amounts (.dict l)) = dictKeys (.dict l)) ∧
    (∀ xs : List PyVal, (postElems xs).length = xs.length) ∧
    (∀ q, post_process_amounts (.num q) = .num q) ∧
    (∀ b, post_process_amounts (.bool b) = .bool b) ∧
    post_process_amounts PyVal.none = PyVal.none := by
  refine ⟨eraseStrings_post, ?_, ?_, fun q => rfl, fun b => rfl, rfl⟩
  · intro l
    simp [post_process_amounts, postFields_map, dictKeys]
  · intro xs
    simp [postElems_map]

/-- C3 counterexample: `parse_amount_to_float("-abc")` raises: the
leading-minus branch calls `float("abc")` outside any `try`, so the
`ValueError` propagates (modelled as `.error ()`). -/
theorem parse_amount_raises_on_leading_minus_garbage :
    parse_amount_to_float (.str "-abc") = .error () := by rfl

/-- C3 (amended): `parse_amount_to_float` returns `0.0` for every
non-string, returns `0.0` for every blank string (empty or
whitespace-only), and for every string that reaches the final branch —
i.e. whose stripped, currency-stripped text matches neither the
trailing-minus nor the parenthesized pattern and does not start with
`-` — never raises: it returns the parsed value when the
`try/except`-guarded `float` succeeds and `0.0` when it fails.  Only
the three sign branches can raise, because only the final branch
guards `float` with `try/except`. -/
theorem parse_amount_no_raise_outside_sign_branches :
    (∀ v : PyVal, v.isStr = false → parse_amount_to_float v = .ok 0) ∧
    (∀ s : String, (stripChars s.data).isEmpty = true →
      parse_amount_to_float (.str s) = .ok 0) ∧
    (∀ s : String,
      matchTrailing (removeCurrency (stripChars s.data)) = Option.none →
      matchParen (removeCurrency (stripChars s.data)) = Option.none →
      startsWithMinus (removeCurrency (stripChars s.data)) = false →
      parse_amount_to_float (.str s) =
        match pyFloat (removeCommas (removeCurrency (stripChars s.data))) with
        | some q => Except.ok q
        | Option.none => Except.ok 0) := by
  refine ⟨?_, ?_, ?_⟩
  · intro v hv
    cases v with
    | str s => simp [PyVal.isStr] at hv
    | num q => rfl
    | bool b => rfl
    | none => rfl
    | list l => rfl
    | dict l => rfl
  · intro s hb
    show parseChars s.data = .ok 0
    unfold parseChars
    by_cases hd : s.data.isEmpty = true
    · rw [if_pos hd]
    · rw [if_neg hd, if_pos hb]
  · intro s hT hP hM
    show parseChars s.data = _
    unfold parseChars
    by_cases hd : s.data.isEmpty = true
    · rw [if_pos hd]
      rw [List.isEmpty_iff] at hd
      rw [hd]
      rfl
    · rw [if_neg hd]
      by_cases ht : (stripChars s.data).isEmpty = true
      · rw [if_pos ht]
        rw [List.isEmpty_iff] at ht
        rw [ht]
        rfl
      · rw [if_neg ht, parseCore_plain hT hP hM]

/-- Witness for the amended C3 theorem: a number input returns `0.0`,
the whitespace-only string returns `0.0`, and the non-matching string
`"abc"` parses without raising — `float` fails there, so the guarded
branch returns `0.0`. -/
theorem parse_amount_no_raise_witness :
    parse_amount_to_float (.num 7) = .ok 0 ∧
    parse_amount_to_float (.str "   ") = .ok 0 ∧
    parse_amount_to_float (.str "abc") = .ok 0 :=
  ⟨parse_amount_no_raise_outside_sign_branches.1 (.num 7) rfl,
    parse_amount_no_raise_outside_sign_branches.2.1 "   " (by decide),
    by
      have h := parse_amount_no_raise_outside_sign_branches.2.2 "abc"
        (by decide) (by decide) (by decide)
      rw [h]
      rfl⟩

/-- C4 counterexample: a non-matching string with surrounding
whitespace is *not* returned exactly as given: `fix_trailing_minus`
returns the stripped text `"abc"`, not `" abc "`. -/
theorem fix_trailing_minus_strips_nonmatching :
    fix_trailing_minus " abc " = "abc" ∧ (" abc " : String) ≠ "abc" := by decide

/-- C4 (amended): on a string that (after stripping) matches neither
pattern, `fix_trailing_minus` returns the input unchanged when it is
blank, and otherwise returns the *stripped* input (so the input is
returned exactly as given only when it has no surrounding whitespace). -/
theorem fix_trailing_minus_nonmatching :
    ∀ s : String,
      matchTrailing (stripChars s.data) = Option.none →
      matchParen (stripChars s.data) = Option.none →
      fix_trailing_minus s =
        if (stripChars s.data).isEmpty = true then s
        else (stripChars s.data).asString := by
  intro s hT hP
  unfold fix_trailing_minus
  by_cases h0 : (stripChars s.data).isEmpty = true
  · rw [if_pos h0, fixChars_of_blank h0]
    exact String.ext rfl
  · have h0' : (stripChars s.data).isEmpty = false := by
      cases hh : (stripChars s.data).isEmpty
      · rfl
      · exact absurd hh h0
    rw [if_neg h0, fixChars_of_nomatch h0' hT hP]

/-- Witness for the amended C4 theorem at the concrete input `" abc "`. -/
theorem fix_trailing_minus_nonmatching_witness :
    fix_trailing_minus " abc " =
      if (stripChars " abc ".data).isEmpty = true then " abc "
      else (stripChars " abc ".data).asString :=
  fix_trailing_minus_nonmatching " abc " (by decide) (by decide)

/-- C1 counterexample: on the claimed input the Balance Projector does
*not* produce `[..., 1300.0]`: the debit string `"200.00-"` parses to
`-200.0` and `current -= -200.0` *adds* 200, giving `1700.0`. -/
theorem running_balances_not_claimed_values :
    calculate_running_balances (.dict [
      ("starting_balance", .str "1,000.00"),
      ("transactions", .list [
        .dict [("date", .str "01/01"), ("credit", .str "500.00"), ("debit", .str "")],
        .dict [("date", .str "01/02"), ("credit", .str ""), ("debit", .str "200.00-")]])]) ≠
    .ok [.dict [("date", .str "01/01"), ("balance", .num 1500)],
         .dict [("date", .str "01/02"), ("balance", .num 1300)]] := by
  have h : calculate_running_balances (.dict [
      ("starting_balance", .str "1,000.00"),
      ("transactions", .list [
        .dict [("date", .str "01/01"), ("credit", .str "500.00"), ("debit", .str "")],
        .dict [("date", .str "01/02"), ("credit", .str ""), ("debit", .str "200.00-")]])]) =
      .ok [.dict [("date", .str "01/01"),
             ("balance", .num (ratOfScan false 1000 0 2 0 + ratOfScan false 500 0 2 0))],
           .dict [("date", .str "01/02"),
             ("balance", .num (ratOfScan false 1000 0 2 0 + ratOfScan false 500 0 2 0
               - -(ratOfScan false 200 0 2 0)))]] := rfl
  rw [h]
  intro hc
  simp only [Except.ok.injEq, List.cons.injEq, PyVal.dict.injEq, Prod.mk.injEq,
    PyVal.num.injEq] at hc
  have hval := hc.2.1.2.1.2
  norm_num [ratOfScan] at hval

/-- C1 (amended): on the claimed input the Balance Projector yields
`[{01/01, 1500.0}, {01/02, 1700.0}]`: each credit string is parsed and
added, each debit string is parsed and subtracted — and since the
trailing-minus debit `"200.00-"` parses to `-200.0`, subtracting it
*increases* the balance (1500 - (-200) = 1700). -/
theorem running_balances_on_claimed_input :
    calculate_running_balances (.dict [
      ("starting_balance", .str "1,000.00"),
      ("transactions", .list [
        .dict [("date", .str "01/01"), ("credit", .str "500.00"), ("debit", .str "")],
        .dict [("date", .str "01/02"), ("credit", .str ""), ("debit", .str "200.00-")]])]) =
    .ok [.dict [("date", .str "01/01"), ("balance", .num 1500)],
         .dict [("date", .str "01/02"), ("balance", .num 1700)]] := by
  have h : calculate_running_balances (.dict [
      ("starting_balance", .str "1,000.00"),
      ("transactions", .list [
        .dict [("date", .str "01/01"), ("credit", .str "500.00"), ("debit", .str "")],
        .dict [("date", .str "01/02"), ("credit", .str ""), ("debit", .str "200.00-")]])]) =
      .ok [.dict [("date", .str "01/01"),
             ("balance", .num (ratOfScan false 1000 0 2 0 + ratOfScan false 500 0 2 0))],
           .dict [("date", .str "01/02"),
             ("balance", .num (ratOfScan false 1000 0 2 0 + ratOfScan false 500 0 2 0
               - -(ratOfScan false 200 0 2 0)))]] := rfl
  rw [h]
  norm_num [ratOfScan]

/- ## Heap-model lemmas for the `nsf_data` aliasing claim -/

theorem lookupH_append_of_none {l : List (String × HVal)} {k : String}
    (h : lookupH l k = Option.none) (m : List (String × HVal)) :
    lookupH (l ++ m) k = lookupH m k := by
  induction l with
  | nil => rfl
  | cons p r ih =>
    obtain ⟨k', v⟩ := p
    by_cases hk : k' = k
    · rw [lookupH, if_pos hk] at h
      cases h
    · rw [lookupH, if_neg hk] at h
      rw [List.cons_append, lookupH, if_neg hk]
      exact ih h

theorem setKeyH_of_not {l : List (String × HVal)} {k : String} (v : HVal)
    (h : lookupH l k = Option.none) : setKeyH l k v = l ++ [(k, v)] := by
  induction l with
  | nil => rfl
  | cons p r ih =>
    obtain ⟨k', v'⟩ := p
    by_cases hk : k' = k
    · rw [lookupH, if_pos hk] at h
      cases h
    · rw [lookupH, if_neg hk] at h
      rw [setKeyH, if_neg hk, List.cons_append, ih h]

theorem append_two_ne_self {α : Type} (l : List α) (a b : α) : l ++ [a, b] ≠ l := by
  intro h
  have := congrArg List.length h
  simp at this

/-- C10: when the input's `nsf_data` is itself a dict, the Structure
Normalizer does not copy it — the returned record's `nsf_data` slot
holds the very same reference (`.ref 1`) as the input, and the
normalizer mutates the caller's objects in place: (first conjunct, for
any prior contents `l1` without `events`/`summary` keys) the missing
`events` and `summary` keys are appended to the aliased dict itself,
whose stored node therefore changes; (second conjunct, for any prior
summary contents `l2` missing the three numeric sub-fields) the missing
sub-fields are appended to the caller's inner summary dict in place.
For such inputs the normalizer is not a pure function of its argument:
the input-reachable part of the store changes. -/
theorem normalizeH_aliases_and_mutates_nsf :
    (∀ l1 : List (String × HVal),
      lookupH l1 "events" = Option.none →
      lookupH l1 "summary" = Option.none →
      normalizeH (.ref 0) [.dict [("nsf_data", .ref 1)], .dict l1] =
        .ok (.ref 6,
          [.dict [("nsf_data", .ref 1)],
           .dict (l1 ++ [("events", .ref 7), ("summary", .ref 8)]),
           .arr [], .arr [], .arr [], .arr [],
           .dict [("company_name", .none), ("bank_name", .none),
                  ("is_bank_statement", .bool false), ("is_application_form", .bool false),
                  ("currency", .none), ("statement_period", .none),
                  ("account_number", .none),
                  ("transactions", .ref 2), ("daily_ending_balance", .ref 3),
                  ("cheques", .ref 4), ("fees", .ref 5),
                  ("starting_balance", .none), ("ending_balance", .none),
                  ("nsf_data", .ref 1)],
           .arr [],
           .dict [("total_nsf_fees", .num 0), ("unique_days_with_nsf", .num 0),
                  ("max_nsfs_in_any_7day_window", .num 0)]]) ∧
      HNode.dict (l1 ++ [("events", .ref 7), ("summary", .ref 8)]) ≠ HNode.dict l1) ∧
    (∀ l2 : List (String × HVal),
      lookupH l2 "total_nsf_fees" = Option.none →
      lookupH l2 "unique_days_with_nsf" = Option.none →
      lookupH l2 "max_nsfs_in_any_7day_window" = Option.none →
      normalizeH (.ref 0)
          [.dict [("nsf_data", .ref 1)],
           .dict [("events", .ref 2), ("summary", .ref 3)],
           .arr [], .dict l2] =
        .ok (.ref 8,
          [.dict [("nsf_data", .ref 1)],
           .dict [("events", .ref 2), ("summary", .ref 3)],
           .arr [],
           .dict (l2 ++ [("total_nsf_fees", .num 0), ("unique_days_with_nsf", .num 0),
                         ("max_nsfs_in_any_7day_window", .num 0)]),
           .arr [], .arr [], .arr [], .arr [],
           .dict [("company_name", .none), ("bank_name", .none),
                  ("is_bank_statement", .bool false), ("is_application_form", .bool false),
                  ("currency", .none), ("statement_period", .none),
                  ("account_number", .none),
                  ("transactions", .ref 4), ("daily_ending_balance", .ref 5),
                  ("cheques", .ref 6), ("fees", .ref 7),
                  ("starting_balance", .none), ("ending_balance", .none),
                  ("nsf_data", .ref 1)]]) ∧
      HNode.dict (l2 ++ [("total_nsf_fees", .num 0), ("unique_days_with_nsf", .num 0),
        ("max_nsfs_in_any_7day_window", .num 0)]) ≠ HNode.dict l2) := by
  constructor
  · intro l1 h1 h2
    have hset1 : setKeyH l1 "events" (.ref 7) = l1 ++ [("events", .ref 7)] :=
      setKeyH_of_not _ h1
    have h2' : lookupH (l1 ++ [("events", .ref 7)]) "summary" = Option.none := by
      rw [lookupH_append_of_none h2]
      rfl
    have hset2 : setKeyH (l1 ++ [("events", .ref 7)]) "summary" (.ref 8) =
        l1 ++ [("events", .ref 7), ("summary", .ref 8)] := by
      rw [setKeyH_of_not _ h2', List.append_assoc]
      rfl
    refine ⟨?_, ?_⟩
    · simp [normalizeH, truthyFieldH, presenceFieldH, listFieldH, allocN, allocSummary,
        allocDefaultNsf, hGetD, hHasKey, hSetKey, isDictR, isListR, hTruthy,
        hSummaryStep, lookupH, h1, h2, hset1, h2', hset2]
    · intro h
      injection h with hh
      exact append_two_ne_self l1 _ _ hh
  · intro l2 ht hu hm
    have hs1 : setKeyH l2 "total_nsf_fees" (.num 0) = l2 ++ [("total_nsf_fees", .num 0)] :=
      setKeyH_of_not _ ht
    have hu' : lookupH (l2 ++ [("total_nsf_fees", HVal.num 0)]) "unique_days_with_nsf" =
        Option.none := by
      rw [lookupH_append_of_none hu]
      rfl
    have hs2 : setKeyH (l2 ++ [("total_nsf_fees", HVal.num 0)]) "unique_days_with_nsf"
        (.num 0) = l2 ++ [("total_nsf_fees", .num 0), ("unique_days_with_nsf", .num 0)] := by
      rw [setKeyH_of_not _ hu', List.append_assoc]
      rfl
    have hm' : lookupH (l2 ++ [("total_nsf_fees", HVal.num 0),
        ("unique_days_with_nsf", HVal.num 0)]) "max_nsfs_in_any_7day_window" =
        Option.none := by
      rw [lookupH_append_of_none hm]
      rfl
    have hs3 : setKeyH (l2 ++ [("total_nsf_fees", HVal.num 0),
        ("unique_days_with_nsf", HVal.num 0)]) "max_nsfs_in_any_7day_window" (.num 0) =
        l2 ++ [("total_nsf_fees", .num 0), ("unique_days_with_nsf", .num 0),
          ("max_nsfs_in_any_7day_window", .num 0)] := by
      rw [setKeyH_of_not _ hm', List.append_assoc]
      rfl
    refine ⟨?_, ?_⟩
    · simp [normalizeH, truthyFieldH, presenceFieldH, listFieldH, allocN, allocSummary,
        allocDefaultNsf, hGetD, hHasKey, hSetKey, isDictR, isListR, hTruthy,
        hSummaryStep, lookupH, ht, hu, hm, hs1, hu', hs2, hm', hs3]
    · intro h
      injection h with hh
      have := congrArg List.length hh
      simp at this

/-- Witness for the C10 theorem: the first conjunct applied to an
initially empty `nsf_data` dict. -/
theorem normalizeH_aliases_witness :
    normalizeH (.ref 0) [.dict [("nsf_data", .ref 1)], .dict []] =
      .ok (.ref 6,
        [.dict [("nsf_data", .ref 1)],
         .dict [("events", .ref 7), ("summary", .ref 8)],
         .arr [], .arr [], .arr [], .arr [],
         .dict [("company_name", .none), ("bank_name", .none),
                ("is_bank_statement", .bool false), ("is_application_form", .bool false),
                ("currency", .none), ("statement_period", .none),
                ("account_number", .none),
                ("transactions", .ref 2), ("daily_ending_balance", .ref 3),
                ("cheques", .ref 4), ("fees", .ref 5),
                ("starting_balance", .none), ("ending_balance", .none),
                ("nsf_data", .ref 1)],
         .arr [],
         .dict [("total_nsf_fees", .num 0), ("unique_days_with_nsf", .num 0),
                ("max_nsfs_in_any_7day_window", .num 0)]]) :=
  (normalizeH_aliases_and_mutates_nsf.1 [] rfl rfl).1
